import Mathlib

/-
Verification of the comment/scoring aggregation model of the cifan-2025
admin review interface.

The embedding models the per-submission ShortFilmComments subcollection as a
functional store (a list of documents plus a server clock and a fresh-id
counter).  The repository contains two copies of the comments service and two
copies of the detail page; where the copies differ, both are embedded:
definitions without a suffix follow src/src/services/shortFilmCommentsService.ts
and src/unnamed/part_000, definitions with the `Page` suffix follow the copies
embedded in src/src/components/pages/AdminApplicationDetailPage.tsx.
-/

/-- Five sub-scores plus the stored total, as carried in the `scores` field of
a scoring comment (shortFilmCommentsService.ts, interface ShortFilmComment). -/
structure Scores where
  technical : Int
  story : Int
  creativity : Int
  chiangmai : Int
  humanEffort : Int
  totalScore : Int
deriving DecidableEq

/-- Modelled from the spec: `recomputeTotal` (spec section 4.2) is the sum of
the five sub-scores.  The code has no function of this name; the computation
appears inline in the part_000 version of handleSaveScore (line 289). -/
def recomputeTotal (p : Scores) : Int :=
  p.technical + p.story + p.creativity + p.chiangmai + p.humanEffort

/-- Modelled from the spec: a payload is valid when every sub-score lies in
0..10 and the stored total equals the sum of the five sub-scores (spec
sections 3 and 7).  No function in the source checks this. -/
def validScorePayload (p : Scores) : Prop :=
  0 ≤ p.technical ∧ p.technical ≤ 10 ∧
  0 ≤ p.story ∧ p.story ≤ 10 ∧
  0 ≤ p.creativity ∧ p.creativity ≤ 10 ∧
  0 ≤ p.chiangmai ∧ p.chiangmai ≤ 10 ∧
  0 ≤ p.humanEffort ∧ p.humanEffort ≤ 10 ∧
  p.totalScore = recomputeTotal p

instance (p : Scores) : Decidable (validScorePayload p) := by
  unfold validScorePayload
  infer_instance

/-- The four comment kinds (`type` field of ShortFilmComment). -/
inductive CommentType
  | general
  | scoring
  | status_change
  | flag
deriving DecidableEq

/-- Metadata records (Record of string to any in the source) are modelled as
association lists from string keys to string-rendered values. -/
abbrev Metadata := List (String × String)

/-- One document of the ShortFilmComments subcollection
(shortFilmCommentsService.ts, interface ShortFilmComment). -/
structure ShortFilmComment where
  id : String
  submissionId : String
  adminId : String
  adminName : String
  adminEmail : String
  content : String
  type : CommentType
  scores : Option Scores
  metadata : Option Metadata
  createdAt : Nat
  updatedAt : Option Nat
  isEdited : Bool
  isDeleted : Bool
deriving DecidableEq

/-- The ShortFilmComments subcollection of one submission, together with the
server clock backing serverTimestamp and a counter supplying fresh document
ids. -/
structure Store where
  docs : List ShortFilmComment
  nextId : Nat
  now : Nat
deriving DecidableEq

def emptyStore : Store := { docs := [], nextId := 0, now := 0 }

/-- addDoc: append a document to the subcollection and advance the server
clock. -/
def addDocToStore (s : Store) (c : ShortFilmComment) : Store :=
  { docs := s.docs ++ [c], nextId := s.nextId + 1, now := s.now + 1 }

/-- Fresh opaque document id assigned by the store on creation. -/
def freshId (s : Store) : String := toString s.nextId

/-- The document written by addGeneralComment (shortFilmCommentsService.ts
lines 61-72): type general, absent scores, metadata defaulted to the empty
record, isEdited and isDeleted false, createdAt from serverTimestamp. -/
def generalEventOf (s : Store) (sid aid an ae content : String)
    (md : Option Metadata) : ShortFilmComment :=
  { id := freshId s, submissionId := sid, adminId := aid, adminName := an,
    adminEmail := ae, content := content, type := CommentType.general,
    scores := none, metadata := some (md.getD []), createdAt := s.now,
    updatedAt := none, isEdited := false, isDeleted := false }

def addGeneralComment (s : Store) (sid aid an ae content : String)
    (md : Option Metadata) : Store × String :=
  (addDocToStore s (generalEventOf s sid aid an ae content md), freshId s)

/-- The document written by addScoringComment (shortFilmCommentsService.ts
lines 89-128): type scoring, the scores payload stored verbatim, content
defaulted, no metadata field, isEdited and isDeleted false.  The function
performs no validation of the payload. -/
def scoringEventOf (s : Store) (sid aid an ae : String) (p : Scores)
    (content : Option String) : ShortFilmComment :=
  { id := freshId s, submissionId := sid, adminId := aid, adminName := an,
    adminEmail := ae, content := content.getD "Scoring evaluation completed",
    type := CommentType.scoring, scores := some p, metadata := none,
    createdAt := s.now, updatedAt := none, isEdited := false,
    isDeleted := false }

def addScoringComment (s : Store) (sid aid an ae : String) (p : Scores)
    (content : Option String) : Store × String :=
  (addDocToStore s (scoringEventOf s sid aid an ae p content), freshId s)

/-- Synthesized content of a status-change comment
(AdminApplicationDetailPage.tsx lines 1026-1028). -/
def statusChangeContent (oldStatus newStatus : String)
    (reason : Option String) : String :=
  match reason with
  | some r =>
      "Status changed from \"" ++ oldStatus ++ "\" to \"" ++ newStatus ++
        "\". Reason: " ++ r
  | none =>
      "Status changed from \"" ++ oldStatus ++ "\" to \"" ++ newStatus ++ "\"."

/-- The document written by addStatusChangeComment
(AdminApplicationDetailPage.tsx lines 1016-1055). -/
def statusChangeEventOf (s : Store) (sid aid an ae oldStatus newStatus : String)
    (reason : Option String) : ShortFilmComment :=
  { id := freshId s, submissionId := sid, adminId := aid, adminName := an,
    adminEmail := ae, content := statusChangeContent oldStatus newStatus reason,
    type := CommentType.status_change, scores := none,
    metadata := some [("oldStatus", oldStatus), ("newStatus", newStatus),
      ("reason", reason.getD "null")],
    createdAt := s.now, updatedAt := none, isEdited := false,
    isDeleted := false }

def addStatusChangeComment (s : Store)
    (sid aid an ae oldStatus newStatus : String) (reason : Option String) :
    Store × String :=
  (addDocToStore s (statusChangeEventOf s sid aid an ae oldStatus newStatus
    reason), freshId s)

/-- Synthesized content of a flag comment (AdminApplicationDetailPage.tsx
lines 1069-1071). -/
def flagContent (flagged : Bool) (reason : Option String) : String :=
  if flagged then
    "Application flagged. " ++
      (match reason with
       | some r => "Reason: " ++ r
       | none => "")
  else
    "Application unflagged."

/-- The document written by addFlagComment (AdminApplicationDetailPage.tsx
lines 1060-1097). -/
def flagEventOf (s : Store) (sid aid an ae : String) (flagged : Bool)
    (reason : Option String) : ShortFilmComment :=
  { id := freshId s, submissionId := sid, adminId := aid, adminName := an,
    adminEmail := ae, content := flagContent flagged reason,
    type := CommentType.flag, scores := none,
    metadata := some [("flagged", toString flagged),
      ("reason", reason.getD "null")],
    createdAt := s.now, updatedAt := none, isEdited := false,
    isDeleted := false }

def addFlagComment (s : Store) (sid aid an ae : String) (flagged : Bool)
    (reason : Option String) : Store × String :=
  (addDocToStore s (flagEventOf s sid aid an ae flagged reason), freshId s)

/-- Firestore orderBy createdAt descending: newer events come first. -/
def newestFirst (a b : ShortFilmComment) : Prop :=
  b.createdAt ≤ a.createdAt

instance : DecidableRel newestFirst :=
  fun a b => Nat.decLe b.createdAt a.createdAt

instance : IsTotal ShortFilmComment newestFirst :=
  ⟨fun a b => Nat.le_total b.createdAt a.createdAt⟩

instance : IsTrans ShortFilmComment newestFirst :=
  ⟨fun _ _ _ h1 h2 => Nat.le_trans h2 h1⟩

def sortNewestFirst (l : List ShortFilmComment) : List ShortFilmComment :=
  List.insertionSort newestFirst l

/-- getComments (shortFilmCommentsService.ts lines 133-168): the non-deleted
documents ordered by createdAt descending. -/
def getComments (s : Store) : List ShortFilmComment :=
  sortNewestFirst (s.docs.filter (fun c => !c.isDeleted))

/-- getCommentsByType (shortFilmCommentsService.ts lines 304-343): the
non-deleted documents of one kind ordered by createdAt descending. -/
def getCommentsByType (s : Store) (t : CommentType) : List ShortFilmComment :=
  sortNewestFirst (s.docs.filter (fun c => c.type == t && !c.isDeleted))

/-- getLatestScoreByAdmin (shortFilmCommentsService.ts lines 257-299): the
scoring-kind non-deleted documents of one admin ordered by createdAt
descending, limited to one document. -/
def getLatestScoreByAdmin (s : Store) (aid : String) :
    Option ShortFilmComment :=
  (sortNewestFirst (s.docs.filter (fun c =>
    c.adminId == aid && c.type == CommentType.scoring && !c.isDeleted))).head?

/-- updateComment (shortFilmCommentsService.ts lines 215-232): updateDoc on a
missing document rejects, which the catch block rethrows as a generic failure;
on an existing document the fields content, updatedAt and isEdited are merged
into the document.  The existing isDeleted flag is not consulted. -/
def updateComment (s : Store) (cid content : String) : Except String Store :=
  if s.docs.any (fun c => c.id == cid) then
    Except.ok { s with
      docs := s.docs.map (fun c =>
        if c.id == cid then
          { c with
            content := content
            updatedAt := some s.now
            isEdited := true }
        else c),
      now := s.now + 1 }
  else
    Except.error "Failed to update comment"

/-- updateComment as embedded in AdminApplicationDetailPage.tsx (lines
888-907): in addition to content, updatedAt and isEdited it writes the
metadata field, defaulting it to the empty record. -/
def updateCommentPage (s : Store) (cid content : String)
    (md : Option Metadata) : Except String Store :=
  if s.docs.any (fun c => c.id == cid) then
    Except.ok { s with
      docs := s.docs.map (fun c =>
        if c.id == cid then
          { c with
            content := content
            metadata := some (md.getD [])
            updatedAt := some s.now
            isEdited := true }
        else c),
      now := s.now + 1 }
  else
    Except.error "Failed to update comment"

/-- deleteComment (shortFilmCommentsService.ts lines 237-252): soft delete by
merging isDeleted true and a fresh updatedAt into the document; the document
is never removed from the collection. -/
def deleteComment (s : Store) (cid : String) : Except String Store :=
  if s.docs.any (fun c => c.id == cid) then
    Except.ok { s with
      docs := s.docs.map (fun c =>
        if c.id == cid then
          { c with isDeleted := true, updatedAt := some s.now }
        else c),
      now := s.now + 1 }
  else
    Except.error "Failed to delete comment"

/-- One delivery of the snapshot stream backing subscribeToComments: either a
consistent snapshot of the store or a stream error. -/
inductive SnapshotEvent
  | snap (s : Store)
  | failure
deriving DecidableEq

/-- Callback invocations produced by the shortFilmCommentsService.ts
subscription (lines 173-210) for one stream event: a snapshot delivers the
filtered newest-first view; the error handler invokes the callback with the
empty list. -/
def subscribeDeliveries (ev : SnapshotEvent) : List (List ShortFilmComment) :=
  match ev with
  | SnapshotEvent.snap s => [getComments s]
  | SnapshotEvent.failure => [[]]

/-- Callback invocations produced by the copy of the subscription embedded in
AdminApplicationDetailPage.tsx (lines 839-883): its error handler only logs
the error and does not invoke the callback. -/
def subscribeDeliveriesPage (ev : SnapshotEvent) :
    List (List ShortFilmComment) :=
  match ev with
  | SnapshotEvent.snap s => [getComments s]
  | SnapshotEvent.failure => []

/-- A whole subscription: the concatenation of the callback invocations for
every event of the snapshot stream (shortFilmCommentsService.ts version). -/
def subscribeToComments (evs : List SnapshotEvent) :
    List (List ShortFilmComment) :=
  evs.flatMap subscribeDeliveries

/-- A whole subscription for the page-embedded copy of the service. -/
def subscribeToCommentsPage (evs : List SnapshotEvent) :
    List (List ShortFilmComment) :=
  evs.flatMap subscribeDeliveriesPage

/-- One entry of the authoritative scores array on the submission record, as
built by the part_000 version of handleSaveScore (lines 262-267). -/
structure SubmissionScore where
  adminId : String
  adminName : String
  technical : Int
  story : Int
  creativity : Int
  chiangmai : Int
  humanEffort : Int
  totalScore : Int
  comments : String
  scoredAt : Nat
deriving DecidableEq

/-- The form data handed to handleSaveScore by the scoring panel. -/
structure ScoringCriteria where
  technical : Int
  story : Int
  creativity : Int
  chiangmai : Int
  humanEffort : Int
  totalScore : Int
  comments : String
deriving DecidableEq

/-- The filter-then-push step of handleSaveScore (part_000 lines 259-269,
AdminApplicationDetailPage.tsx lines 237-238): drop every entry whose adminId
matches, then push the new score. -/
def replaceAuthorScore (scores : List SubmissionScore) (aid : String)
    (newScore : SubmissionScore) : List SubmissionScore :=
  scores.filter (fun sc => sc.adminId != aid) ++ [newScore]

/-- Payload sent to addScoringComment by the part_000 handleSaveScore (lines
283-290): the total is recomputed as the sum of the five sub-scores. -/
def scoresFromCriteriaP0 (sc : ScoringCriteria) : Scores :=
  { technical := sc.technical, story := sc.story, creativity := sc.creativity,
    chiangmai := sc.chiangmai, humanEffort := sc.humanEffort,
    totalScore := sc.technical + sc.story + sc.creativity + sc.chiangmai +
      sc.humanEffort }

/-- Payload sent to addScoringComment by the AdminApplicationDetailPage.tsx
handleSaveScore (lines 256-263): the client totalScore field is passed
through unchanged. -/
def scoresFromCriteriaPage (sc : ScoringCriteria) : Scores :=
  { technical := sc.technical, story := sc.story, creativity := sc.creativity,
    chiangmai := sc.chiangmai, humanEffort := sc.humanEffort,
    totalScore := sc.totalScore }

/-- The new authoritative-array entry built by the part_000 handleSaveScore
(lines 262-267). -/
def newScoreEntryP0 (uid uname : String) (sc : ScoringCriteria) (t : Nat) :
    SubmissionScore :=
  { adminId := uid, adminName := uname, technical := sc.technical,
    story := sc.story, creativity := sc.creativity, chiangmai := sc.chiangmai,
    humanEffort := sc.humanEffort, totalScore := sc.totalScore,
    comments := sc.comments, scoredAt := t }

/-- Score-saving path of the part_000 page (lines 250-316): update the
authoritative scores array by filter-then-push and append a scoring comment
whose total is recomputed from the sub-scores. -/
def handleSaveScoreP0 (st : Store) (sid uid uname uemail : String)
    (appScores : List SubmissionScore) (sc : ScoringCriteria) :
    (Store × String) × List SubmissionScore :=
  (addScoringComment st sid uid uname uemail (scoresFromCriteriaP0 sc)
    (some sc.comments),
   replaceAuthorScore appScores uid (newScoreEntryP0 uid uname sc st.now))

/-- Score-saving path of AdminApplicationDetailPage.tsx (lines 228-274):
appends a scoring comment whose totalScore is the client-supplied value. -/
def handleSaveScorePage (st : Store) (sid uid uname uemail : String)
    (sc : ScoringCriteria) : Store × String :=
  addScoringComment st sid uid uname uemail (scoresFromCriteriaPage sc)
    (some sc.comments)

/-- The operations that mutate the comment log, for reasoning over whole
operation traces. -/
inductive LogOp
  | addGeneral (sid aid an ae content : String) (md : Option Metadata)
  | addScoring (sid aid an ae : String) (p : Scores) (content : Option String)
  | addStatus (sid aid an ae oldStatus newStatus : String)
      (reason : Option String)
  | addFlag (sid aid an ae : String) (flagged : Bool) (reason : Option String)
  | editOp (cid content : String)
  | deleteOp (cid : String)
deriving DecidableEq

/-- Apply one log operation; a rejected edit or delete leaves the store
unchanged (the page catches the failure and only notifies the user). -/
def applyLogOp (s : Store) : LogOp → Store
  | LogOp.addGeneral sid aid an ae content md =>
      (addGeneralComment s sid aid an ae content md).1
  | LogOp.addScoring sid aid an ae p content =>
      (addScoringComment s sid aid an ae p content).1
  | LogOp.addStatus sid aid an ae o n r =>
      (addStatusChangeComment s sid aid an ae o n r).1
  | LogOp.addFlag sid aid an ae f r =>
      (addFlagComment s sid aid an ae f r).1
  | LogOp.editOp cid content =>
      match updateComment s cid content with
      | Except.ok s2 => s2
      | Except.error _ => s
  | LogOp.deleteOp cid =>
      match deleteComment s cid with
      | Except.ok s2 => s2
      | Except.error _ => s

def runLogOps (s : Store) : List LogOp → Store
  | [] => s
  | op :: rest => runLogOps (applyLogOp s op) rest

def LogOp.isEditOp : LogOp → Bool
  | LogOp.editOp _ _ => true
  | _ => false

def LogOp.isDeleteOp : LogOp → Bool
  | LogOp.deleteOp _ => true
  | _ => false

/-- A concrete payload used in scenarios. -/
def demoPayload : Scores :=
  { technical := 1, story := 2, creativity := 3, chiangmai := 4,
    humanEffort := 0, totalScore := 10 }

/-- A concrete scoring event used in scenarios. -/
def demoScoreEvent (i aid : String) (t : Nat) : ShortFilmComment :=
  { id := i, submissionId := "s1", adminId := aid, adminName := aid,
    adminEmail := "", content := "", type := CommentType.scoring,
    scores := some demoPayload,
    metadata := none, createdAt := t, updatedAt := none,
    isEdited := false, isDeleted := false }

/-- Scoring events by admin A at times 1 and 2 and by admin B at time 3. -/
def demoStoreScores : Store :=
  { docs := [demoScoreEvent "e1" "A" 1, demoScoreEvent "e2" "A" 2,
      demoScoreEvent "e3" "B" 3],
    nextId := 3, now := 4 }

/-- A concrete general comment used in scenarios. -/
def demoGeneralEvent (i : String) (t : Nat) (deleted : Bool) :
    ShortFilmComment :=
  { id := i, submissionId := "s1", adminId := "A", adminName := "A",
    adminEmail := "", content := "old", type := CommentType.general,
    scores := none, metadata := some [("k", "v")], createdAt := t,
    updatedAt := none, isEdited := false, isDeleted := deleted }

/-- A store whose document c1 is already soft-deleted and whose document c2
is live. -/
def demoStoreEdit : Store :=
  { docs := [demoGeneralEvent "c1" 1 true, demoGeneralEvent "c2" 2 false],
    nextId := 2, now := 5 }

/-- A store with a single live document c1. -/
def demoStoreDel : Store :=
  { docs := [demoGeneralEvent "c1" 1 false], nextId := 1, now := 1 }

/-- A concrete authoritative-array entry used in scenarios. -/
def demoSubScore (aid : String) (tot : Int) : SubmissionScore :=
  { adminId := aid, adminName := aid, technical := 1, story := 1,
    creativity := 1, chiangmai := 1, humanEffort := 1, totalScore := tot,
    comments := "", scoredAt := 0 }

/-- Form data whose client-side total (99) disagrees with the sum of its
sub-scores (40). -/
def scBad : ScoringCriteria :=
  { technical := 8, story := 7, creativity := 9, chiangmai := 6,
    humanEffort := 10, totalScore := 99, comments := "" }

/-- A payload with an out-of-range sub-score and a mismatched total. -/
def pBad : Scores :=
  { technical := 11, story := 0, creativity := 0, chiangmai := 0,
    humanEffort := 0, totalScore := 0 }

instance {e a : Type} [DecidableEq e] [DecidableEq a] :
    DecidableEq (Except e a) := fun x y =>
  match x, y with
  | Except.ok u, Except.ok v =>
      if h : u = v then isTrue (by rw [h])
      else isFalse (by intro hh; injection hh with hh2; exact h hh2)
  | Except.error u, Except.error v =>
      if h : u = v then isTrue (by rw [h])
      else isFalse (by intro hh; injection hh with hh2; exact h hh2)
  | Except.ok _, Except.error _ => isFalse (by intro hh; cases hh)
  | Except.error _, Except.ok _ => isFalse (by intro hh; cases hh)

/-- The document c1 of demoStoreDel after its first soft delete. -/
def demoDelDocAfter : ShortFilmComment :=
  { demoGeneralEvent "c1" 1 false with isDeleted := true, updatedAt := some 1 }

/-- demoStoreDel after one soft delete of c1. -/
def demoDelAfter1 : Store := { docs := [demoDelDocAfter], nextId := 1, now := 2 }

/-- The document c1 after the second soft delete. -/
def demoDelDocAfter2 : ShortFilmComment :=
  { demoDelDocAfter with updatedAt := some 2 }

/-- demoStoreDel after two soft deletes of c1. -/
def demoDelAfter2 : Store :=
  { docs := [demoDelDocAfter2], nextId := 1, now := 3 }

/-- The already-deleted document c1 of demoStoreEdit. -/
def demoDeletedDoc : ShortFilmComment := demoGeneralEvent "c1" 1 true

/-- The live document c2 of demoStoreEdit. -/
def demoLiveDoc : ShortFilmComment := demoGeneralEvent "c2" 2 false

/-- The deleted document c1 after it has been edited anyway. -/
def demoEditedDeletedDoc : ShortFilmComment :=
  { demoDeletedDoc with
    content := "new text"
    updatedAt := some 5
    isEdited := true }

/-- demoStoreEdit after editing the already-deleted document c1. -/
def demoStoreEditAfter : Store :=
  { docs := [demoEditedDeletedDoc, demoLiveDoc], nextId := 2, now := 6 }

/-- The view handed to the callback for one stream event: the filtered
newest-first listing on a snapshot, the empty list on an error. -/
def deliveredView (ev : SnapshotEvent) : List ShortFilmComment :=
  match ev with
  | SnapshotEvent.snap s => getComments s
  | SnapshotEvent.failure => []

/-- demoStoreEdit after the service-version edit of the live document c2. -/
def demoStoreEditAfter2 : Store :=
  { docs := [demoDeletedDoc,
      { demoLiveDoc with
        content := "hello"
        updatedAt := some 5
        isEdited := true }],
    nextId := 2, now := 6 }

/-- demoStoreEdit after the page-version edit of the live document c2 with no
metadata argument. -/
def demoStoreEditPageAfter : Store :=
  { docs := [demoDeletedDoc,
      { demoLiveDoc with
        content := "new"
        metadata := some []
        updatedAt := some 5
        isEdited := true }],
    nextId := 2, now := 6 }

/-- A concrete trace: one general comment (which receives id 0) followed by a
soft delete of that comment; it contains no edit operation. -/
def demoOps : List LogOp :=
  [LogOp.addGeneral "s1" "A" "A" "" "hi" none, LogOp.deleteOp "0"]

/-- The single document after running demoOps from the empty store: the
general comment, soft-deleted at time 1, never edited. -/
def demoOpsDoc : ShortFilmComment :=
  { generalEventOf emptyStore "s1" "A" "A" "" "hi" none with
    isDeleted := true
    updatedAt := some 1 }

/-- Sorting newest-first does not change membership. -/
theorem mem_sortNewestFirst {l : List ShortFilmComment}
    {c : ShortFilmComment} : c ∈ sortNewestFirst l ↔ c ∈ l :=
  List.mem_insertionSort (r := newestFirst)

/-- The newest-first listing is sorted by descending createdAt. -/
theorem sorted_sortNewestFirst (l : List ShortFilmComment) :
    List.Sorted newestFirst (sortNewestFirst l) :=
  List.sorted_insertionSort newestFirst l

theorem sortNewestFirst_eq_nil_iff {l : List ShortFilmComment} :
    sortNewestFirst l = [] ↔ l = [] := by
  constructor
  · intro h
    cases l with
    | nil => rfl
    | cons a t =>
        have ha : a ∈ sortNewestFirst (a :: t) :=
          mem_sortNewestFirst.mpr (List.mem_cons_self a t)
        rw [h] at ha
        cases ha
  · intro h
    subst h
    rfl

/-- The head of the newest-first listing is a maximal element. -/
theorem head_max_sortNewestFirst {l : List ShortFilmComment}
    {c : ShortFilmComment} (h : (sortNewestFirst l).head? = some c) :
    c ∈ l ∧ ∀ d ∈ l, d.createdAt ≤ c.createdAt := by
  cases hs : sortNewestFirst l with
  | nil => rw [hs] at h; cases h
  | cons a t =>
      rw [hs] at h
      have hac : a = c := by
        simpa using h
      subst hac
      constructor
      · exact mem_sortNewestFirst.mp (hs ▸ List.mem_cons_self a t)
      · intro d hd
        have hd2 : d ∈ sortNewestFirst l := mem_sortNewestFirst.mpr hd
        rw [hs] at hd2
        rcases List.mem_cons.mp hd2 with h1 | h2
        · rw [h1]
        · exact List.rel_of_sorted_cons (hs ▸ sorted_sortNewestFirst l) d h2

/-- An element strictly newer than all others is the head of the
newest-first listing. -/
theorem head_sortNewestFirst_of_strict_max {l : List ShortFilmComment}
    {c : ShortFilmComment} (hmem : c ∈ l)
    (hmax : ∀ d ∈ l, d ≠ c → d.createdAt < c.createdAt) :
    (sortNewestFirst l).head? = some c := by
  cases hs : sortNewestFirst l with
  | nil =>
      have hl : l = [] := sortNewestFirst_eq_nil_iff.mp hs
      subst hl
      cases hmem
  | cons a t =>
      have hhead : (sortNewestFirst l).head? = some a := by rw [hs]; rfl
      obtain ⟨ha, hall⟩ := head_max_sortNewestFirst hhead
      by_cases he : a = c
      · simp [he]
      · exfalso
        have h1 := hall c hmem
        have h2 := hmax a ha he
        omega

/-- Membership in the full listing: exactly the non-deleted documents. -/
theorem mem_getComments_iff {s : Store} {c : ShortFilmComment} :
    c ∈ getComments s ↔ c ∈ s.docs ∧ c.isDeleted = false := by
  unfold getComments
  rw [mem_sortNewestFirst, List.mem_filter]
  simp [Bool.not_eq_true']

/-- Membership in the by-kind listing: exactly the non-deleted documents of
that kind. -/
theorem mem_getCommentsByType_iff {s : Store} {t : CommentType}
    {c : ShortFilmComment} :
    c ∈ getCommentsByType s t ↔
      c ∈ s.docs ∧ c.type = t ∧ c.isDeleted = false := by
  unfold getCommentsByType
  rw [mem_sortNewestFirst, List.mem_filter]
  simp [Bool.not_eq_true', and_assoc]

/-- Characterization of a successful updateComment. -/
theorem updateComment_ok_elim {s : Store} {cid content : String} {s2 : Store}
    (h : updateComment s cid content = Except.ok s2) :
    s2.docs = s.docs.map (fun c =>
      if c.id == cid then
        { c with content := content, updatedAt := some s.now, isEdited := true }
      else c) ∧ s2.now = s.now + 1 ∧ s2.nextId = s.nextId := by
  unfold updateComment at h
  split at h
  · injection h with h2
    subst h2
    exact ⟨rfl, rfl, rfl⟩
  · cases h

theorem updateComment_ok_of_any {s : Store} {cid : String} (content : String)
    (h : s.docs.any (fun c => c.id == cid) = true) :
    updateComment s cid content = Except.ok { s with
      docs := s.docs.map (fun c =>
        if c.id == cid then
          { c with
            content := content
            updatedAt := some s.now
            isEdited := true }
        else c),
      now := s.now + 1 } := by
  unfold updateComment
  rw [if_pos h]

theorem updateComment_error_of_not_any {s : Store} {cid : String}
    (content : String) (h : s.docs.any (fun c => c.id == cid) = false) :
    updateComment s cid content = Except.error "Failed to update comment" := by
  unfold updateComment
  rw [if_neg]
  rw [h]
  simp

/-- Characterization of a successful page-embedded updateComment. -/
theorem updateCommentPage_ok_elim {s : Store} {cid content : String}
    {md : Option Metadata} {s2 : Store}
    (h : updateCommentPage s cid content md = Except.ok s2) :
    s2.docs = s.docs.map (fun c =>
      if c.id == cid then
        { c with
          content := content
          metadata := some (md.getD [])
          updatedAt := some s.now
          isEdited := true }
      else c) ∧ s2.now = s.now + 1 ∧ s2.nextId = s.nextId := by
  unfold updateCommentPage at h
  split at h
  · injection h with h2
    subst h2
    exact ⟨rfl, rfl, rfl⟩
  · cases h

/-- Characterization of a successful deleteComment. -/
theorem deleteComment_ok_elim {s : Store} {cid : String} {s2 : Store}
    (h : deleteComment s cid = Except.ok s2) :
    s2.docs = s.docs.map (fun c =>
      if c.id == cid then
        { c with isDeleted := true, updatedAt := some s.now }
      else c) ∧ s2.now = s.now + 1 ∧ s2.nextId = s.nextId := by
  unfold deleteComment at h
  split at h
  · injection h with h2
    subst h2
    exact ⟨rfl, rfl, rfl⟩
  · cases h

theorem deleteComment_ok_of_any {s : Store} {cid : String}
    (h : s.docs.any (fun c => c.id == cid) = true) :
    deleteComment s cid = Except.ok { s with
      docs := s.docs.map (fun c =>
        if c.id == cid then
          { c with
            isDeleted := true
            updatedAt := some s.now }
        else c),
      now := s.now + 1 } := by
  unfold deleteComment
  rw [if_pos h]

/-- Soft delete keeps every document id in the collection. -/
theorem deleteComment_preserves_ids {s : Store} {cid : String} {s2 : Store}
    (h : deleteComment s cid = Except.ok s2) :
    s2.docs.length = s.docs.length ∧
    ∀ c ∈ s.docs, ∃ c2 ∈ s2.docs, c2.id = c.id := by
  obtain ⟨hdocs, -, -⟩ := deleteComment_ok_elim h
  constructor
  · rw [hdocs, List.length_map]
  · intro c hc
    refine ⟨if c.id == cid then
      { c with isDeleted := true, updatedAt := some s.now } else c, ?_, ?_⟩
    · rw [hdocs]
      exact List.mem_map.mpr ⟨c, hc, rfl⟩
    · by_cases hid : (c.id == cid) = true
      · simp [hid]
      · simp [hid]

/-- Every operation other than an edit leaves all isEdited flags false. -/
theorem applyLogOp_isEdited_preserved {s : Store} {op : LogOp}
    (hop : op.isEditOp = false) (hs : ∀ c ∈ s.docs, c.isEdited = false) :
    ∀ c ∈ (applyLogOp s op).docs, c.isEdited = false := by
  cases op with
  | addGeneral sid aid an ae content md =>
      intro c hc
      simp only [applyLogOp, addGeneralComment, addDocToStore] at hc
      rcases List.mem_append.mp hc with h | h
      · exact hs c h
      · rw [List.mem_singleton.mp h]; rfl
  | addScoring sid aid an ae p content =>
      intro c hc
      simp only [applyLogOp, addScoringComment, addDocToStore] at hc
      rcases List.mem_append.mp hc with h | h
      · exact hs c h
      · rw [List.mem_singleton.mp h]; rfl
  | addStatus sid aid an ae o n r =>
      intro c hc
      simp only [applyLogOp, addStatusChangeComment, addDocToStore] at hc
      rcases List.mem_append.mp hc with h | h
      · exact hs c h
      · rw [List.mem_singleton.mp h]; rfl
  | addFlag sid aid an ae f r =>
      intro c hc
      simp only [applyLogOp, addFlagComment, addDocToStore] at hc
      rcases List.mem_append.mp hc with h | h
      · exact hs c h
      · rw [List.mem_singleton.mp h]; rfl
  | editOp cid content =>
      simp [LogOp.isEditOp] at hop
  | deleteOp cid =>
      intro c hc
      simp only [applyLogOp] at hc
      cases hdel : deleteComment s cid with
      | ok s2 =>
          rw [hdel] at hc
          obtain ⟨hdocs, -, -⟩ := deleteComment_ok_elim hdel
          simp only [hdocs] at hc
          obtain ⟨d, hd, hfd⟩ := List.mem_map.mp hc
          subst hfd
          by_cases hid : (d.id == cid) = true
          · simp only [hid, if_true]
            exact hs d hd
          · simp only [hid, if_neg]
            simp only [Bool.not_eq_true] at hid
            simp only [hid, Bool.false_eq_true, if_false]
            exact hs d hd
      | error e =>
          rw [hdel] at hc
          exact hs c hc

/-- Every operation other than a soft delete leaves all isDeleted flags
false. -/
theorem applyLogOp_isDeleted_preserved {s : Store} {op : LogOp}
    (hop : op.isDeleteOp = false) (hs : ∀ c ∈ s.docs, c.isDeleted = false) :
    ∀ c ∈ (applyLogOp s op).docs, c.isDeleted = false := by
  cases op with
  | addGeneral sid aid an ae content md =>
      intro c hc
      simp only [applyLogOp, addGeneralComment, addDocToStore] at hc
      rcases List.mem_append.mp hc with h | h
      · exact hs c h
      · rw [List.mem_singleton.mp h]; rfl
  | addScoring sid aid an ae p content =>
      intro c hc
      simp only [applyLogOp, addScoringComment, addDocToStore] at hc
      rcases List.mem_append.mp hc with h | h
      · exact hs c h
      · rw [List.mem_singleton.mp h]; rfl
  | addStatus sid aid an ae o n r =>
      intro c hc
      simp only [applyLogOp, addStatusChangeComment, addDocToStore] at hc
      rcases List.mem_append.mp hc with h | h
      · exact hs c h
      · rw [List.mem_singleton.mp h]; rfl
  | addFlag sid aid an ae f r =>
      intro c hc
      simp only [applyLogOp, addFlagComment, addDocToStore] at hc
      rcases List.mem_append.mp hc with h | h
      · exact hs c h
      · rw [List.mem_singleton.mp h]; rfl
  | editOp cid content =>
      intro c hc
      simp only [applyLogOp] at hc
      cases hupd : updateComment s cid content with
      | ok s2 =>
          rw [hupd] at hc
          obtain ⟨hdocs, -, -⟩ := updateComment_ok_elim hupd
          simp only [hdocs] at hc
          obtain ⟨d, hd, hfd⟩ := List.mem_map.mp hc
          subst hfd
          by_cases hid : (d.id == cid) = true
          · simp only [hid, if_true]
            exact hs d hd
          · simp only [Bool.not_eq_true] at hid
            simp only [hid, Bool.false_eq_true, if_false]
            exact hs d hd
      | error e =>
          rw [hupd] at hc
          exact hs c hc
  | deleteOp cid =>
      simp [LogOp.isDeleteOp] at hop

/-- Traces without an edit build stores whose documents all carry
isEdited false. -/
theorem runLogOps_isEdited_false (ops : List LogOp) :
    ∀ s : Store, (∀ op ∈ ops, op.isEditOp = false) →
      (∀ c ∈ s.docs, c.isEdited = false) →
      ∀ c ∈ (runLogOps s ops).docs, c.isEdited = false := by
  induction ops with
  | nil => intro s _ hs; exact hs
  | cons op rest ih =>
      intro s hops hs
      exact ih (applyLogOp s op)
        (fun o ho => hops o (List.mem_cons_of_mem _ ho))
        (applyLogOp_isEdited_preserved (hops op (List.mem_cons_self _ _)) hs)

/-- Traces without a soft delete build stores whose documents all carry
isDeleted false. -/
theorem runLogOps_isDeleted_false (ops : List LogOp) :
    ∀ s : Store, (∀ op ∈ ops, op.isDeleteOp = false) →
      (∀ c ∈ s.docs, c.isDeleted = false) →
      ∀ c ∈ (runLogOps s ops).docs, c.isDeleted = false := by
  induction ops with
  | nil => intro s _ hs; exact hs
  | cons op rest ih =>
      intro s hops hs
      exact ih (applyLogOp s op)
        (fun o ho => hops o (List.mem_cons_of_mem _ ho))
        (applyLogOp_isDeleted_preserved (hops op (List.mem_cons_self _ _)) hs)

/-- Filtering out an admin and then selecting that admin yields nothing. -/
theorem filter_removed_admin (l : List SubmissionScore) (aid : String) :
    (l.filter (fun sc => sc.adminId != aid)).filter
      (fun sc => sc.adminId == aid) = [] := by
  induction l with
  | nil => rfl
  | cons a t ih =>
      by_cases h : a.adminId = aid
      · simp [List.filter_cons, h, ih]
      · simp [List.filter_cons, h, ih]

/-- Filtering out one admin does not disturb the entries of another admin. -/
theorem filter_other_admin (l : List SubmissionScore) (aid b : String)
    (hb : b ≠ aid) :
    (l.filter (fun sc => sc.adminId != aid)).filter
      (fun sc => sc.adminId == b) = l.filter (fun sc => sc.adminId == b) := by
  induction l with
  | nil => rfl
  | cons a t ih =>
      by_cases h : a.adminId = b
      · have h2 : a.adminId ≠ aid := by rw [h]; exact hb
        simp [List.filter_cons, h, h2, hb, Ne.symm hb, ih]
      · by_cases h2 : a.adminId = aid
        · simp [List.filter_cons, h, h2, hb, Ne.symm hb, ih]
        · simp [List.filter_cons, h, h2, hb, Ne.symm hb, ih]

/-- C1 (amended): on the part_000 score-saving path the persisted scoring
payload always satisfies the invariant: its totalScore is recomputed at the
call site as the sum of the five sub-scores, and recomputeTotal of the
persisted payload is exactly that sum.  (The AdminApplicationDetailPage.tsx
path instead trusts the client-supplied total, see the counterexample.) -/
theorem saveScoreP0_total_is_sum (st : Store) (sid uid uname uemail : String)
    (appScores : List SubmissionScore) (sc : ScoringCriteria) :
    ∃ c ∈ ((handleSaveScoreP0 st sid uid uname uemail appScores sc).1.1).docs,
      c.scores = some (scoresFromCriteriaP0 sc) ∧
      (scoresFromCriteriaP0 sc).totalScore =
        recomputeTotal (scoresFromCriteriaP0 sc) ∧
      recomputeTotal (scoresFromCriteriaP0 sc) =
        sc.technical + sc.story + sc.creativity + sc.chiangmai +
          sc.humanEffort := by
  refine ⟨scoringEventOf st sid uid uname uemail (scoresFromCriteriaP0 sc)
    (some sc.comments), ?_, rfl, rfl, rfl⟩
  simp [handleSaveScoreP0, addScoringComment, addDocToStore]

/-- C1 counterexample: the AdminApplicationDetailPage.tsx score-saving path
persists the client-supplied totalScore unchanged: with sub-scores summing to
40 and a client total of 99, the stored payload has totalScore 99, not the
sum of its five sub-scores. -/
theorem saveScorePage_trusts_client_total :
    ∃ c ∈ ((handleSaveScorePage emptyStore "s1" "A" "A" "" scBad).1).docs,
      c.scores = some (scoresFromCriteriaPage scBad) ∧
      (scoresFromCriteriaPage scBad).totalScore = 99 ∧
      recomputeTotal (scoresFromCriteriaPage scBad) = 40 ∧
      (scoresFromCriteriaPage scBad).totalScore ≠
        recomputeTotal (scoresFromCriteriaPage scBad) := by
  decide

/-- C2: getLatestScoreByAdmin returns a non-deleted scoring event of the
given admin whose createdAt is maximal among all such events, and returns
none exactly when that admin has no non-deleted scoring event. -/
theorem getLatestScoreByAdmin_correct (s : Store) (aid : String) :
    (∀ c, getLatestScoreByAdmin s aid = some c →
      c ∈ s.docs ∧ c.adminId = aid ∧ c.type = CommentType.scoring ∧
        c.isDeleted = false ∧
        ∀ d ∈ s.docs, d.adminId = aid → d.type = CommentType.scoring →
          d.isDeleted = false → d.createdAt ≤ c.createdAt) ∧
    (getLatestScoreByAdmin s aid = none ↔
      ∀ d ∈ s.docs, ¬(d.adminId = aid ∧ d.type = CommentType.scoring ∧
        d.isDeleted = false)) := by
  constructor
  · intro c hc
    obtain ⟨hmem, hmax⟩ := head_max_sortNewestFirst hc
    rw [List.mem_filter] at hmem
    obtain ⟨hdocs, hp⟩ := hmem
    simp only [Bool.and_eq_true, beq_iff_eq, Bool.not_eq_true'] at hp
    refine ⟨hdocs, hp.1.1, hp.1.2, hp.2, ?_⟩
    intro d hd h1 h2 h3
    apply hmax
    rw [List.mem_filter]
    refine ⟨hd, ?_⟩
    simp [h1, h2, h3]
  · unfold getLatestScoreByAdmin
    constructor
    · intro hnone d hd hnd
      obtain ⟨h1, h2, h3⟩ := hnd
      have hdf : d ∈ s.docs.filter (fun c =>
          c.adminId == aid && c.type == CommentType.scoring &&
            !c.isDeleted) := by
        rw [List.mem_filter]
        refine ⟨hd, ?_⟩
        simp [h1, h2, h3]
      have hdm : d ∈ sortNewestFirst (s.docs.filter (fun c =>
          c.adminId == aid && c.type == CommentType.scoring &&
            !c.isDeleted)) := mem_sortNewestFirst.mpr hdf
      cases hs : sortNewestFirst (s.docs.filter (fun c =>
          c.adminId == aid && c.type == CommentType.scoring &&
            !c.isDeleted)) with
      | nil => rw [hs] at hdm; cases hdm
      | cons a t => rw [hs] at hnone; cases hnone
    · intro hall
      cases hs : sortNewestFirst (s.docs.filter (fun c =>
          c.adminId == aid && c.type == CommentType.scoring &&
            !c.isDeleted)) with
      | nil => rfl
      | cons a t =>
          exfalso
          have ha : a ∈ sortNewestFirst (s.docs.filter (fun c =>
              c.adminId == aid && c.type == CommentType.scoring &&
                !c.isDeleted)) := by
            rw [hs]
            exact List.mem_cons_self a t
          have ha2 := mem_sortNewestFirst.mp ha
          rw [List.mem_filter] at ha2
          obtain ⟨had, hap⟩ := ha2
          simp only [Bool.and_eq_true, beq_iff_eq, Bool.not_eq_true'] at hap
          exact hall a had ⟨hap.1.1, hap.1.2, hap.2⟩

/-- C2 witness: over scoring events at times 1 and 2 by admin A and time 3 by
admin B, the latest score for A is the time-2 event, for B the time-3 event,
and none for an admin C with no scoring events; the time-2 event is maximal
among the events of A. -/
theorem getLatestScoreByAdmin_correct_witness :
    getLatestScoreByAdmin demoStoreScores "A" =
      some (demoScoreEvent "e2" "A" 2) ∧
    getLatestScoreByAdmin demoStoreScores "B" =
      some (demoScoreEvent "e3" "B" 3) ∧
    getLatestScoreByAdmin demoStoreScores "C" = none ∧
    demoScoreEvent "e2" "A" 2 ∈ demoStoreScores.docs ∧
    (demoScoreEvent "e1" "A" 1).createdAt ≤
      (demoScoreEvent "e2" "A" 2).createdAt := by
  have h := (getLatestScoreByAdmin_correct demoStoreScores "A").1
    (demoScoreEvent "e2" "A" 2) (by decide)
  exact ⟨by decide, by decide, by decide, h.1,
    h.2.2.2.2 (demoScoreEvent "e1" "A" 1) (by decide) (by decide) (by decide)
      (by decide)⟩

/-- C3: replaceAuthorScore removes every entry of the given admin and appends
the new score: the given admin then holds exactly the new entry, any other
admin keeps exactly its previous entries in order, and the
at-most-one-score-per-admin invariant is preserved. -/
theorem replaceAuthorScore_correct (l : List SubmissionScore) (aid : String)
    (ns : SubmissionScore) :
    replaceAuthorScore l aid ns =
      l.filter (fun sc => sc.adminId != aid) ++ [ns] ∧
    (ns.adminId = aid →
      (replaceAuthorScore l aid ns).filter
        (fun sc => sc.adminId == aid) = [ns]) ∧
    (∀ b, b ≠ aid →
      (replaceAuthorScore l aid ns).filter (fun sc => sc.adminId == b) =
        l.filter (fun sc => sc.adminId == b) ++
          (if ns.adminId = b then [ns] else [])) ∧
    (ns.adminId = aid →
      (∀ a, (l.filter (fun sc => sc.adminId == a)).length ≤ 1) →
      ∀ a, ((replaceAuthorScore l aid ns).filter
        (fun sc => sc.adminId == a)).length ≤ 1) := by
  have h1 : replaceAuthorScore l aid ns =
      l.filter (fun sc => sc.adminId != aid) ++ [ns] := rfl
  have h2 : ns.adminId = aid →
      (replaceAuthorScore l aid ns).filter
        (fun sc => sc.adminId == aid) = [ns] := by
    intro h
    rw [h1, List.filter_append, filter_removed_admin]
    simp [h]
  have h3 : ∀ b, b ≠ aid →
      (replaceAuthorScore l aid ns).filter (fun sc => sc.adminId == b) =
        l.filter (fun sc => sc.adminId == b) ++
          (if ns.adminId = b then [ns] else []) := by
    intro b hb
    rw [h1, List.filter_append, filter_other_admin l aid b hb]
    by_cases hnb : ns.adminId = b <;> simp [hnb]
  refine ⟨h1, h2, h3, ?_⟩
  intro hns hlen a
  by_cases ha : a = aid
  · subst ha
    rw [h2 hns]
    simp
  · rw [h3 a ha]
    have hna : ns.adminId ≠ a := by
      rw [hns]
      exact fun hh => ha hh.symm
    rw [if_neg hna]
    simpa using hlen a

/-- C3 witness: replacing the score of admin A in a two-entry list with
admins A and B removes the old A entry, keeps the B entry with its identity
and relative order, and appends the new score, so A holds exactly the new
entry and B exactly its old one. -/
theorem replaceAuthorScore_correct_witness :
    replaceAuthorScore [demoSubScore "A" 10, demoSubScore "B" 20] "A"
        (demoSubScore "A" 40) =
      [demoSubScore "B" 20, demoSubScore "A" 40] ∧
    (replaceAuthorScore [demoSubScore "A" 10, demoSubScore "B" 20] "A"
        (demoSubScore "A" 40)).filter (fun sc => sc.adminId == "A") =
      [demoSubScore "A" 40] ∧
    (replaceAuthorScore [demoSubScore "A" 10, demoSubScore "B" 20] "A"
        (demoSubScore "A" 40)).filter (fun sc => sc.adminId == "B") =
      [demoSubScore "B" 20] := by
  have h := replaceAuthorScore_correct
    [demoSubScore "A" 10, demoSubScore "B" 20] "A" (demoSubScore "A" 40)
  refine ⟨by decide, h.2.1 (by decide), ?_⟩
  rw [h.2.2.1 "B" (by decide)]
  decide

theorem deleteComment_error_of_not_any {s : Store} {cid : String}
    (h : s.docs.any (fun c => c.id == cid) = false) :
    deleteComment s cid = Except.error "Failed to delete comment" := by
  unfold deleteComment
  rw [if_neg]
  rw [h]
  simp

/-- A soft delete marks every document carrying the target id as deleted and
stamps it with the current server time. -/
theorem deleteComment_marks {s : Store} {cid : String} {s2 : Store}
    (h : deleteComment s cid = Except.ok s2) :
    ∀ c ∈ s2.docs, c.id = cid →
      c.isDeleted = true ∧ c.updatedAt = some s.now := by
  obtain ⟨hdocs, -, -⟩ := deleteComment_ok_elim h
  intro c hc hcid
  rw [hdocs] at hc
  obtain ⟨d, hd, hfd⟩ := List.mem_map.mp hc
  subst hfd
  by_cases hid : (d.id == cid) = true
  · simp [hid]
  · exfalso
    simp only [Bool.not_eq_true] at hid
    simp only [hid, Bool.false_eq_true, if_false] at hcid
    rw [hcid] at hid
    simp at hid

/-- The target id is still present after a soft delete. -/
theorem deleteComment_any_preserved {s : Store} {cid : String} {s2 : Store}
    (h : deleteComment s cid = Except.ok s2) :
    s2.docs.any (fun c => c.id == cid) = true := by
  have hany : s.docs.any (fun c => c.id == cid) = true := by
    cases hb : s.docs.any (fun c => c.id == cid) with
    | true => rfl
    | false =>
        rw [deleteComment_error_of_not_any hb] at h
        cases h
  obtain ⟨hdocs, -, -⟩ := deleteComment_ok_elim h
  obtain ⟨d, hd, hid⟩ := List.any_eq_true.mp hany
  rw [hdocs]
  refine List.any_eq_true.mpr ⟨_, List.mem_map.mpr ⟨d, hd, rfl⟩, ?_⟩
  simp only [hid, if_true]

/-- C4 (amended): a soft delete never removes a document and marks the target
as deleted; calling it again on the already-deleted event also succeeds (no
error) and keeps the event deleted and stored, but each call stamps updatedAt
with the then-current server time, so the stored state after the second call
differs from the state after the first once the clock has advanced. -/
theorem deleteComment_soft_and_repeat (s : Store) (cid : String) (s2 : Store)
    (h : deleteComment s cid = Except.ok s2) :
    s2.docs.length = s.docs.length ∧
    (∀ c ∈ s.docs, ∃ c2 ∈ s2.docs, c2.id = c.id) ∧
    (∀ c ∈ s2.docs, c.id = cid →
      c.isDeleted = true ∧ c.updatedAt = some s.now) ∧
    (∃ s3, deleteComment s2 cid = Except.ok s3 ∧
      s3.docs.length = s.docs.length ∧
      ∀ c ∈ s3.docs, c.id = cid →
        c.isDeleted = true ∧ c.updatedAt = some s2.now) := by
  obtain ⟨hlen, hids⟩ := deleteComment_preserves_ids h
  refine ⟨hlen, hids, deleteComment_marks h, ?_⟩
  have hany2 := deleteComment_any_preserved h
  refine ⟨_, deleteComment_ok_of_any hany2, ?_, ?_⟩
  · obtain ⟨hlen2, -⟩ := deleteComment_preserves_ids
      (deleteComment_ok_of_any hany2)
    rw [hlen2, hlen]
  · exact deleteComment_marks (deleteComment_ok_of_any hany2)

/-- C4 counterexample: deleting the same event twice is not free of side
effects the second time: the second call succeeds and the event stays stored
and deleted, but its updatedAt moves from the first to the second deletion
time, so the stored event state after the second call differs from the state
after the first. -/
theorem softDelete_second_call_not_noop :
    deleteComment demoStoreDel "c1" = Except.ok demoDelAfter1 ∧
    deleteComment demoDelAfter1 "c1" = Except.ok demoDelAfter2 ∧
    demoDelAfter2 ≠ demoDelAfter1 ∧
    demoDelDocAfter2.updatedAt ≠ demoDelDocAfter.updatedAt ∧
    demoDelAfter2.docs.length = demoStoreDel.docs.length ∧
    demoDelDocAfter2.isDeleted = true := by
  decide

/-- C4 witness: applying the amended delete theorem to the one-document store
shows the document count is preserved and the deleted document is marked with
the deletion time. -/
theorem deleteComment_soft_and_repeat_witness :
    demoDelAfter1.docs.length = demoStoreDel.docs.length ∧
    demoDelDocAfter.isDeleted = true ∧
    demoDelDocAfter.updatedAt = some demoStoreDel.now := by
  have h := deleteComment_soft_and_repeat demoStoreDel "c1" demoDelAfter1
    (by decide)
  exact ⟨h.1, (h.2.2.1 demoDelDocAfter (by decide) (by decide)).1,
    (h.2.2.1 demoDelDocAfter (by decide) (by decide)).2⟩

/-- C5 (amended): updateComment fails with the NotFound failure exactly when
the target document does not exist (the store is then unchanged); on any
existing document, live or already soft-deleted, it succeeds, setting content
to the new text, isEdited to true and updatedAt to the current time, and
leaving every other document untouched. -/
theorem updateComment_notfound_or_update (s : Store) (cid content : String) :
    (s.docs.any (fun c => c.id == cid) = false →
      updateComment s cid content = Except.error "Failed to update comment") ∧
    (s.docs.any (fun c => c.id == cid) = true →
      ∃ s2, updateComment s cid content = Except.ok s2 ∧
        (∀ c ∈ s2.docs, c.id = cid →
          c.content = content ∧ c.isEdited = true ∧
            c.updatedAt = some s.now) ∧
        (∀ c ∈ s2.docs, c.id ≠ cid → c ∈ s.docs)) := by
  constructor
  · intro h
    exact updateComment_error_of_not_any content h
  · intro h
    refine ⟨_, updateComment_ok_of_any content h, ?_, ?_⟩
    · intro c hc hcid
      have hc2 : c ∈ s.docs.map (fun c =>
          if c.id == cid then
            { c with
              content := content
              updatedAt := some s.now
              isEdited := true }
          else c) := hc
      obtain ⟨d, hd, hfd⟩ := List.mem_map.mp hc2
      subst hfd
      by_cases hid : (d.id == cid) = true
      · simp [hid]
      · exfalso
        simp only [Bool.not_eq_true] at hid
        simp only [hid, Bool.false_eq_true, if_false] at hcid
        rw [hcid] at hid
        simp at hid
    · intro c hc hcid
      have hc2 : c ∈ s.docs.map (fun c =>
          if c.id == cid then
            { c with
              content := content
              updatedAt := some s.now
              isEdited := true }
          else c) := hc
      obtain ⟨d, hd, hfd⟩ := List.mem_map.mp hc2
      subst hfd
      by_cases hid : (d.id == cid) = true
      · exfalso
        simp only [hid, if_true] at hcid
        simp only [beq_iff_eq] at hid
        exact hcid hid
      · simp only [Bool.not_eq_true] at hid
        simp only [hid, Bool.false_eq_true, if_false]
        exact hd

/-- C5 counterexample: editing an already soft-deleted event does not fail
with NotFound: on a store whose document c1 is soft-deleted, updateComment
succeeds and rewrites that deleted document in place. -/
theorem updateComment_succeeds_on_deleted :
    demoDeletedDoc.isDeleted = true ∧
    updateComment demoStoreEdit "c1" "new text" =
      Except.ok demoStoreEditAfter ∧
    demoEditedDeletedDoc ∈ demoStoreEditAfter.docs ∧
    demoEditedDeletedDoc.content = "new text" ∧
    demoEditedDeletedDoc.isEdited = true ∧
    demoEditedDeletedDoc.isDeleted = true := by
  decide

/-- C5 witness: on the empty store an edit of a missing id fails with the
NotFound failure, and on a store with a live document c2 the edit succeeds
and sets content, isEdited and updatedAt. -/
theorem updateComment_notfound_or_update_witness :
    updateComment emptyStore "zz" "x" =
      Except.error "Failed to update comment" ∧
    ∃ s2, updateComment demoStoreEdit "c2" "hello" = Except.ok s2 ∧
      ∀ c ∈ s2.docs, c.id = "c2" →
        c.content = "hello" ∧ c.isEdited = true ∧ c.updatedAt = some 5 := by
  constructor
  · exact (updateComment_notfound_or_update emptyStore "zz" "x").1 (by decide)
  · obtain ⟨s2, hok, hset, -⟩ :=
      (updateComment_notfound_or_update demoStoreEdit "c2" "hello").2
        (by decide)
    exact ⟨s2, hok, hset⟩

/-- C6: getComments and getCommentsByType return exactly the non-deleted
events (of the requested kind), ordered newest first; after a soft delete the
deleted id never appears in a listing again; and with a monotonic clock a
freshly appended document is the most recent element both of the
matching-kind listing and of the full listing. -/
theorem list_excludes_deleted_newest_first (s : Store) :
    (∀ c, c ∈ getComments s ↔ c ∈ s.docs ∧ c.isDeleted = false) ∧
    List.Sorted newestFirst (getComments s) ∧
    (∀ t, List.Sorted newestFirst (getCommentsByType s t)) ∧
    (∀ t c, c ∈ getCommentsByType s t ↔
      c ∈ s.docs ∧ c.type = t ∧ c.isDeleted = false) ∧
    (∀ cid s2, deleteComment s cid = Except.ok s2 →
      ∀ c ∈ getComments s2, c.id ≠ cid) ∧
    (∀ c : ShortFilmComment, c.isDeleted = false → c.createdAt = s.now →
      (∀ d ∈ s.docs, d.createdAt < s.now) →
      (getCommentsByType (addDocToStore s c) c.type).head? = some c ∧
      (getComments (addDocToStore s c)).head? = some c) ∧
    (∀ sid aid an ae content md, (∀ d ∈ s.docs, d.createdAt < s.now) →
      (getCommentsByType (addGeneralComment s sid aid an ae content md).1
        CommentType.general).head? =
          some (generalEventOf s sid aid an ae content md)) := by
  have hfresh : ∀ c : ShortFilmComment, c.isDeleted = false →
      c.createdAt = s.now → (∀ d ∈ s.docs, d.createdAt < s.now) →
      (getCommentsByType (addDocToStore s c) c.type).head? = some c ∧
      (getComments (addDocToStore s c)).head? = some c := by
    intro c hdel hts hclock
    constructor
    · unfold getCommentsByType
      apply head_sortNewestFirst_of_strict_max
      · rw [List.mem_filter]
        constructor
        · simp [addDocToStore]
        · simp [hdel]
      · intro d hd hne
        rw [List.mem_filter] at hd
        obtain ⟨hd1, -⟩ := hd
        simp only [addDocToStore] at hd1
        rcases List.mem_append.mp hd1 with h1 | h1
        · rw [hts]
          exact hclock d h1
        · exact absurd (List.mem_singleton.mp h1) hne
    · unfold getComments
      apply head_sortNewestFirst_of_strict_max
      · rw [List.mem_filter]
        constructor
        · simp [addDocToStore]
        · simp [hdel]
      · intro d hd hne
        rw [List.mem_filter] at hd
        obtain ⟨hd1, -⟩ := hd
        simp only [addDocToStore] at hd1
        rcases List.mem_append.mp hd1 with h1 | h1
        · rw [hts]
          exact hclock d h1
        · exact absurd (List.mem_singleton.mp h1) hne
  refine ⟨fun c => mem_getComments_iff, sorted_sortNewestFirst _,
    fun t => sorted_sortNewestFirst _,
    fun t c => mem_getCommentsByType_iff, ?_, hfresh, ?_⟩
  · intro cid s2 hdel c hc hcid
    obtain ⟨hc2, hcd⟩ := mem_getComments_iff.mp hc
    have hm := deleteComment_marks hdel c hc2 hcid
    rw [hm.1] at hcd
    cases hcd
  · intro sid aid an ae content md hclock
    exact (hfresh (generalEventOf s sid aid an ae content md) rfl rfl
      hclock).1

/-- C6 witness: on the three-event store the time-3 event is listed as
non-deleted, and a freshly appended general comment is the head, that is the
most recent element, of the general-kind listing. -/
theorem list_excludes_deleted_newest_first_witness :
    demoScoreEvent "e3" "B" 3 ∈ getComments demoStoreScores ∧
    (getCommentsByType
      (addGeneralComment demoStoreScores "s1" "A" "A" "" "hi" none).1
        CommentType.general).head? =
      some (generalEventOf demoStoreScores "s1" "A" "A" "" "hi" none) := by
  have h := list_excludes_deleted_newest_first demoStoreScores
  exact ⟨(h.1 (demoScoreEvent "e3" "B" 3)).mpr (by decide),
    h.2.2.2.2.2.2 "s1" "A" "A" "" "hi" none (by decide)⟩

/-- C7 (amended): addScoringComment performs no validation and never rejects:
any payload, including one whose sub-scores are out of the 0..10 range or
whose totalScore differs from the sum of the sub-scores, is appended verbatim
as a live scoring event. -/
theorem addScoringComment_no_validation (s : Store) (sid aid an ae : String)
    (p : Scores) (content : Option String) (_hinvalid : ¬ validScorePayload p) :
    ∃ c ∈ (addScoringComment s sid aid an ae p content).1.docs,
      c.scores = some p ∧ c.type = CommentType.scoring ∧
        c.isDeleted = false := by
  refine ⟨scoringEventOf s sid aid an ae p content, ?_, rfl, rfl, rfl⟩
  simp [addScoringComment, addDocToStore]

/-- C7 witness: the payload with technical 11 and total 0 is invalid and is
nevertheless appended and stored verbatim. -/
theorem addScoringComment_no_validation_witness :
    ¬ validScorePayload pBad ∧
    ∃ c ∈ (addScoringComment emptyStore "s1" "A" "A" "" pBad none).1.docs,
      c.scores = some pBad ∧ c.type = CommentType.scoring ∧
        c.isDeleted = false :=
  ⟨by decide, addScoringComment_no_validation emptyStore "s1" "A" "A" ""
    pBad none (by decide)⟩

/-- C7 counterexample: a payload with a sub-score of 11 and a mismatched
total is persisted by addScoringComment and is visible in the scoring
listing: nothing rejects it before (or after) the append. -/
theorem addScoringComment_persists_invalid :
    ¬ validScorePayload pBad ∧
    ∃ c ∈ getCommentsByType
        (addScoringComment emptyStore "s1" "A" "A" "" pBad none).1
        CommentType.scoring,
      c.scores = some pBad := by
  decide

/-- C8 (amended): the shortFilmCommentsService.ts subscription invokes the
callback exactly once per stream event: a snapshot delivers the filtered
newest-first view, and the error handler delivers the empty list, so the
error neither propagates nor leaves the callback uninvoked.  (The copy of the
service embedded in the page only logs on error, see the counterexample.) -/
theorem subscribe_error_delivers_empty (evs : List SnapshotEvent) :
    subscribeToComments evs = evs.map deliveredView ∧
    ∀ ev ∈ evs, ev = SnapshotEvent.failure → deliveredView ev = [] := by
  constructor
  · induction evs with
    | nil => rfl
    | cons e t ih =>
        cases e with
        | snap st =>
            simp only [subscribeToComments, List.flatMap_cons, List.map_cons]
              at ih ⊢
            rw [ih]
            rfl
        | failure =>
            simp only [subscribeToComments, List.flatMap_cons, List.map_cons]
              at ih ⊢
            rw [ih]
            rfl
  · intro ev _ h
    subst h
    rfl

/-- C8 witness: a subscription over a snapshot followed by a stream error
delivers the listing and then the empty list -- one callback invocation per
event. -/
theorem subscribe_error_delivers_empty_witness :
    subscribeToComments
      [SnapshotEvent.snap demoStoreScores, SnapshotEvent.failure] =
      [getComments demoStoreScores, []] ∧
    deliveredView SnapshotEvent.failure = [] := by
  have h := subscribe_error_delivers_empty
    [SnapshotEvent.snap demoStoreScores, SnapshotEvent.failure]
  refine ⟨?_, h.2 SnapshotEvent.failure (by decide) rfl⟩
  rw [h.1]
  rfl

/-- C8 counterexample: the copy of subscribeToComments embedded in
AdminApplicationDetailPage.tsx leaves the callback uninvoked when the stream
errors: over a single erroring stream it produces no callback invocation at
all, while the service version delivers one empty-list invocation. -/
theorem subscribePage_error_no_callback :
    subscribeToCommentsPage [SnapshotEvent.failure] = [] ∧
    subscribeToComments [SnapshotEvent.failure] = [[]] := by
  decide

/-- C9 (amended): updateComment touches only content, updatedAt and isEdited:
the document list keeps its shape and every document, edited or not, keeps
its id, submissionId, author identity fields, kind, scores payload, metadata,
createdAt and isDeleted flag.  (The copy embedded in the page additionally
rewrites metadata, see the counterexample.) -/
theorem updateComment_frame (s : Store) (cid content : String) (s2 : Store)
    (h : updateComment s cid content = Except.ok s2) :
    List.Forall₂ (fun c2 c : ShortFilmComment =>
      c2.id = c.id ∧ c2.submissionId = c.submissionId ∧
      c2.adminId = c.adminId ∧ c2.adminName = c.adminName ∧
      c2.adminEmail = c.adminEmail ∧ c2.type = c.type ∧
      c2.scores = c.scores ∧ c2.metadata = c.metadata ∧
      c2.createdAt = c.createdAt ∧ c2.isDeleted = c.isDeleted)
      s2.docs s.docs := by
  obtain ⟨hdocs, -, -⟩ := updateComment_ok_elim h
  rw [hdocs]
  rw [List.forall₂_map_left_iff]
  rw [List.forall₂_same]
  intro c hc
  by_cases hid : (c.id == cid) = true
  · simp [hid]
  · simp only [Bool.not_eq_true] at hid
    simp [hid]

/-- C9 witness: editing the live document c2 leaves every document of the
store related to its old version by the frame relation: author identity,
kind, scores, metadata, createdAt, submissionId and isDeleted unchanged. -/
theorem updateComment_frame_witness :
    List.Forall₂ (fun c2 c : ShortFilmComment =>
      c2.id = c.id ∧ c2.submissionId = c.submissionId ∧
      c2.adminId = c.adminId ∧ c2.adminName = c.adminName ∧
      c2.adminEmail = c.adminEmail ∧ c2.type = c.type ∧
      c2.scores = c.scores ∧ c2.metadata = c.metadata ∧
      c2.createdAt = c.createdAt ∧ c2.isDeleted = c.isDeleted)
      demoStoreEditAfter2.docs demoStoreEdit.docs :=
  updateComment_frame demoStoreEdit "c2" "hello" demoStoreEditAfter2
    (by decide)

/-- C9 counterexample: the page-embedded updateComment does not leave
metadata unchanged: editing document c2 without supplying metadata resets its
stored metadata record to the empty record. -/
theorem updateCommentPage_overwrites_metadata :
    demoLiveDoc.metadata = some [("k", "v")] ∧
    updateCommentPage demoStoreEdit "c2" "new" none =
      Except.ok demoStoreEditPageAfter ∧
    ∃ c ∈ demoStoreEditPageAfter.docs, c.id = "c2" ∧ c.metadata = some [] := by
  decide

/-- C10: every append operation creates its event with isEdited false and
isDeleted false, the fresh event is visible to the listing (and hence to the
snapshot delivered to subscribers); over any operation trace from the empty
store, a document can carry isEdited true only if the trace contains an edit
and isDeleted true only if it contains a soft delete. -/
theorem append_initial_flags (s : Store) :
    (∀ sid aid an ae content md,
      (generalEventOf s sid aid an ae content md).isEdited = false ∧
      (generalEventOf s sid aid an ae content md).isDeleted = false ∧
      generalEventOf s sid aid an ae content md ∈
        getComments (addGeneralComment s sid aid an ae content md).1) ∧
    (∀ sid aid an ae p content,
      (scoringEventOf s sid aid an ae p content).isEdited = false ∧
      (scoringEventOf s sid aid an ae p content).isDeleted = false ∧
      scoringEventOf s sid aid an ae p content ∈
        getComments (addScoringComment s sid aid an ae p content).1) ∧
    (∀ sid aid an ae o n r,
      (statusChangeEventOf s sid aid an ae o n r).isEdited = false ∧
      (statusChangeEventOf s sid aid an ae o n r).isDeleted = false ∧
      statusChangeEventOf s sid aid an ae o n r ∈
        getComments (addStatusChangeComment s sid aid an ae o n r).1) ∧
    (∀ sid aid an ae f r,
      (flagEventOf s sid aid an ae f r).isEdited = false ∧
      (flagEventOf s sid aid an ae f r).isDeleted = false ∧
      flagEventOf s sid aid an ae f r ∈
        getComments (addFlagComment s sid aid an ae f r).1) ∧
    (∀ st : Store,
      subscribeDeliveries (SnapshotEvent.snap st) = [getComments st]) ∧
    (∀ ops : List LogOp, (∀ op ∈ ops, op.isEditOp = false) →
      ∀ c ∈ (runLogOps emptyStore ops).docs, c.isEdited = false) ∧
    (∀ ops : List LogOp, (∀ op ∈ ops, op.isDeleteOp = false) →
      ∀ c ∈ (runLogOps emptyStore ops).docs, c.isDeleted = false) := by
  refine ⟨?_, ?_, ?_, ?_, fun st => rfl, ?_, ?_⟩
  · intro sid aid an ae content md
    refine ⟨rfl, rfl, ?_⟩
    rw [mem_getComments_iff]
    constructor
    · simp [addGeneralComment, addDocToStore]
    · rfl
  · intro sid aid an ae p content
    refine ⟨rfl, rfl, ?_⟩
    rw [mem_getComments_iff]
    constructor
    · simp [addScoringComment, addDocToStore]
    · rfl
  · intro sid aid an ae o n r
    refine ⟨rfl, rfl, ?_⟩
    rw [mem_getComments_iff]
    constructor
    · simp [addStatusChangeComment, addDocToStore]
    · rfl
  · intro sid aid an ae f r
    refine ⟨rfl, rfl, ?_⟩
    rw [mem_getComments_iff]
    constructor
    · simp [addFlagComment, addDocToStore]
    · rfl
  · intro ops hops
    exact runLogOps_isEdited_false ops emptyStore hops (fun c hc => by
      cases hc)
  · intro ops hops
    exact runLogOps_isDeleted_false ops emptyStore hops (fun c hc => by
      cases hc)

/-- C10 witness: a freshly appended general comment carries isEdited and
isDeleted false and is visible in the listing, and after the edit-free trace
demoOps the surviving document still carries isEdited false. -/
theorem append_initial_flags_witness :
    (generalEventOf emptyStore "s1" "A" "A" "" "hi" none).isEdited = false ∧
    (generalEventOf emptyStore "s1" "A" "A" "" "hi" none).isDeleted = false ∧
    generalEventOf emptyStore "s1" "A" "A" "" "hi" none ∈
      getComments (addGeneralComment emptyStore "s1" "A" "A" "" "hi" none).1 ∧
    demoOpsDoc.isEdited = false := by
  have h := append_initial_flags emptyStore
  obtain ⟨h1, h2, h3⟩ := h.1 "s1" "A" "A" "" "hi" none
  refine ⟨h1, h2, h3, ?_⟩
  exact h.2.2.2.2.2.1 demoOps (by decide) demoOpsDoc (by decide)
